import Mathlib

/-!
# signcheck: detection of embedded code signatures

A shallow embedding of `signcheck.go`.  The program asks three library parsers
(`pe.Open`, `macho.Open`, `macho.OpenFat`) for a parsed view of a file and then
looks for the record that announces a signature.  The parsers themselves belong
to the Go standard library; their results are inputs of the model (`World`),
and the data they produce is modelled by the types of the `pe` and `macho`
sections below.
-/

namespace Signcheck

/-! ## Errors -/

/-- A Go `error` value, identified with its message. -/
abbrev Error := String

/-! ## `debug/pe`: the parsed PE container -/

namespace pe

/-- Index of the security (certificate table) slot of the data-directory table. -/
def IMAGE_DIRECTORY_ENTRY_SECURITY : Nat := 4

/-- One slot of the data-directory table: two `uint32` fields. -/
structure DataDirectory where
  VirtualAddress : Nat
  Size : Nat
  deriving DecidableEq, Repr

/-- The zero value of `pe.DataDirectory`, the initial value of `var securityDir`. -/
def DataDirectory.zero : DataDirectory := ⟨0, 0⟩

/-- The dynamic value of the field `OptionalHeader` (declared `any` in Go): `nil`
when the image has no optional header, a pointer to the 32-bit or to the 64-bit
header, or a value of some other dynamic type.  The data-directory table is kept
as a list so that the length test of the source is meaningful; the library
declares it as an array of 16 slots. -/
inductive OptionalHeader where
  | nil
  | OptionalHeader32 (DataDirectory : List DataDirectory)
  | OptionalHeader64 (DataDirectory : List DataDirectory)
  | other
  deriving DecidableEq, Repr

/-- The part of `pe.File` the program reads. -/
structure File where
  OptionalHeader : OptionalHeader
  deriving DecidableEq, Repr

end pe

/-! ## `encoding/binary` -/

namespace binary

/-- The two implementations of `binary.ByteOrder`. -/
inductive ByteOrder where
  | LittleEndian
  | BigEndian
  deriving DecidableEq, Repr

/-- `ByteOrder.Uint32(b)`: decodes the first four bytes of `b`; Go panics when `b`
has fewer than four bytes, which is `none` here.  Bytes are naturals reduced
modulo 256. -/
def ByteOrder.Uint32 : ByteOrder → List Nat → Option Nat
  | .LittleEndian, b0 :: b1 :: b2 :: b3 :: _ =>
      some (b0 % 256 + (b1 % 256) * 256 + (b2 % 256) * 65536 + (b3 % 256) * 16777216)
  | .BigEndian, b0 :: b1 :: b2 :: b3 :: _ =>
      some (b3 % 256 + (b2 % 256) * 256 + (b1 % 256) * 65536 + (b0 % 256) * 16777216)
  | _, _ => none

end binary

/-! ## `debug/macho`: the parsed Mach-O container -/

namespace macho

/-- The dynamic variants of the interface `macho.Load`.  Every variant carries the
raw bytes of its command (`Raw()`); `LoadBytes` is the variant the library uses
for a command it does not decode further. -/
inductive Load where
  | LoadBytes (data : List Nat)
  | Segment (Name : String) (raw : List Nat)
  | Symtab (raw : List Nat)
  | Dysymtab (raw : List Nat)
  | Dylib (raw : List Nat)
  | Rpath (raw : List Nat)
  deriving DecidableEq, Repr

/-- The method `Raw()` of a load command. -/
def Load.Raw : Load → List Nat
  | .LoadBytes data => data
  | .Segment _ raw => raw
  | .Symtab raw => raw
  | .Dysymtab raw => raw
  | .Dylib raw => raw
  | .Rpath raw => raw

/-- The part of `macho.File` the program reads: the recorded byte order, the
word width (from the header magic) and the load commands. -/
structure File where
  ByteOrder : binary.ByteOrder
  is64 : Bool
  Loads : List Load
  deriving DecidableEq, Repr

/-- One slice of a universal binary. -/
structure FatArch where
  File : File
  deriving DecidableEq, Repr

/-- The part of `macho.FatFile` the program reads. -/
structure FatFile where
  Arches : List FatArch
  deriving DecidableEq, Repr

end macho

/-! ## The outside world -/

/-- What the library calls of the program return for each file name: the three
parsers, each yielding a parsed container or an error, and `os.Open`, yielding
the bytes of the file or nothing. -/
structure World where
  peOpen : String → Except Error pe.File
  machoOpen : String → Except Error macho.File
  machoOpenFat : String → Except Error macho.FatFile
  osOpen : String → Option (List Nat)

/-! ## The program -/

/-- `checkPESignature`: the pair `(signed, err)`. -/
def checkPESignature (w : World) (filename : String) : Bool × Option Error :=
  match w.peOpen filename with
  | .error err => (false, some err)
  | .ok pefile =>
    let ret (securityDir : pe.DataDirectory) : Bool × Option Error :=
      (decide (securityDir.Size > 0) && decide (securityDir.VirtualAddress > 0), none)
    match pefile.OptionalHeader with
    | .OptionalHeader32 dd =>
        if h : dd.length > pe.IMAGE_DIRECTORY_ENTRY_SECURITY then
          ret (dd.get ⟨pe.IMAGE_DIRECTORY_ENTRY_SECURITY, h⟩)
        else ret pe.DataDirectory.zero
    | .OptionalHeader64 dd =>
        if h : dd.length > pe.IMAGE_DIRECTORY_ENTRY_SECURITY then
          ret (dd.get ⟨pe.IMAGE_DIRECTORY_ENTRY_SECURITY, h⟩)
        else ret pe.DataDirectory.zero
    | _ => (false, some "unsupported PE format")

/-- The constant `LC_CODE_SIGNATURE` of the source. -/
def LC_CODE_SIGNATURE : Nat := 0x1d

/-- The loop of `hasCodeSignature` over `machoFile.Loads`: only a load command of
dynamic type `macho.LoadBytes` with at least four bytes is decoded. -/
def hasCodeSignature.loop (byteOrder : binary.ByteOrder) : List macho.Load → Bool
  | [] => false
  | .LoadBytes data :: rest =>
      if data.length ≥ 4 then
        match byteOrder.Uint32 (data.take 4) with
        | some cmd => if cmd = LC_CODE_SIGNATURE then true else hasCodeSignature.loop byteOrder rest
        | none => hasCodeSignature.loop byteOrder rest
      else hasCodeSignature.loop byteOrder rest
  | _ :: rest => hasCodeSignature.loop byteOrder rest

/-- `hasCodeSignature`. -/
def hasCodeSignature (machoFile : macho.File) : Bool :=
  hasCodeSignature.loop machoFile.ByteOrder machoFile.Loads

/-- The loop of `checkMachoSignature` over `machoFile.Loads`, with the statement
after the loop as the case of the exhausted list. -/
def checkMachoSignature.loop (machoFile : macho.File) : List macho.Load → Bool × Option Error
  | [] => (hasCodeSignature machoFile, none)
  | .Segment Name _ :: rest =>
      if Name = "__LINKEDIT" then (hasCodeSignature machoFile, none)
      else checkMachoSignature.loop machoFile rest
  | _ :: rest => checkMachoSignature.loop machoFile rest

/-- `checkMachoSignature`: the pair `(signed, err)`. -/
def checkMachoSignature (w : World) (filename : String) : Bool × Option Error :=
  match w.machoOpen filename with
  | .error err => (false, some err)
  | .ok machoFile => checkMachoSignature.loop machoFile machoFile.Loads

/-- The loop of `checkFatMachoSignature` over `fatFile.Arches`. -/
def checkFatMachoSignature.loop : List macho.FatArch → Bool × Option Error
  | [] => (false, none)
  | arch :: rest =>
      if hasCodeSignature arch.File then (true, none) else checkFatMachoSignature.loop rest

/-- `checkFatMachoSignature`: the pair `(signed, err)`. -/
def checkFatMachoSignature (w : World) (filename : String) : Bool × Option Error :=
  match w.machoOpenFat filename with
  | .error err => (false, some err)
  | .ok fatFile => checkFatMachoSignature.loop fatFile.Arches

/-- `checkSignature`: the triple `(signed, fileType, err)`. -/
def checkSignature (w : World) (filename : String) : Bool × String × Option Error :=
  match checkPESignature w filename with
  | (signed, none) => (signed, "Windows PE", none)
  | (_, some _) =>
    match checkMachoSignature w filename with
    | (signed, none) => (signed, "macOS Mach-O", none)
    | (_, some _) =>
      match checkFatMachoSignature w filename with
      | (signed, none) => (signed, "macOS Universal Binary", none)
      | (_, some _) => (false, "Unknown", some "unsupported file format")

/-! ### Reading the file directly -/

/-- An open `*os.File`: the bytes of the file and the current offset. -/
structure Handle where
  data : List Nat
  pos : Nat
  deriving DecidableEq, Repr

/-- `f.Seek(offset, whence)` for the two uses of the source: `whence = 0` sets the
offset, `whence = 1` moves it forward.  All offsets of the source are
non-negative, and seeking past the end of the file is allowed. -/
def Handle.Seek (f : Handle) (offset : Nat) (whence : Nat) : Handle :=
  if whence = 0 then { f with pos := offset } else { f with pos := f.pos + offset }

/-- `binary.Read(f, order, &v)` for a `uint32` destination: four bytes from the
current offset, decoded in `order`; `none` is the error returned when fewer than
four bytes remain. -/
def binary.Read (f : Handle) (order : binary.ByteOrder) : Option (Nat × Handle) :=
  match order.Uint32 (f.data.drop f.pos) with
  | some v => some (v, { f with pos := f.pos + 4 })
  | none => none

/-- The load-command loop of `hasCodeSignatureFromFile`; the first argument is the
number `ncmd - i` of iterations still allowed by the loop condition `i < ncmd`. -/
def hasCodeSignatureFromFile.walk (byteOrder : binary.ByteOrder) : Nat → Handle → Bool
  | 0, _ => false
  | n + 1, f =>
    match binary.Read f byteOrder with
    | none => false
    | some (cmd, f) =>
      match binary.Read f byteOrder with
      | none => false
      | some (cmdsize, f) =>
        if cmd = LC_CODE_SIGNATURE then true
        else if cmdsize < 8 then false
        else hasCodeSignatureFromFile.walk byteOrder n (f.Seek (cmdsize - 8) 1)

/-- The `switch magic` of `hasCodeSignatureFromFile`: the selected byte order and
`is64bit`, or `none` for the `default` case. -/
def hasCodeSignatureFromFile.layout (magic : Nat) : Option (binary.ByteOrder × Bool) :=
  if magic = 0xfeedface then some (.BigEndian, false)
  else if magic = 0xcefaedfe then some (.LittleEndian, false)
  else if magic = 0xfeedfacf then some (.BigEndian, true)
  else if magic = 0xcffaedfe then some (.LittleEndian, true)
  else none

/-- `hasCodeSignatureFromFile`. -/
def hasCodeSignatureFromFile (w : World) (filename : String) : Bool :=
  match w.osOpen filename with
  | none => false
  | some bytes =>
    let f : Handle := ⟨bytes, 0⟩
    match binary.Read f .LittleEndian with
    | none => false
    | some (magic, f) =>
      match hasCodeSignatureFromFile.layout magic with
      | none => false
      | some (byteOrder, is64bit) =>
        let f := f.Seek 0 0
        let f := if is64bit then f.Seek 16 0 else f.Seek 16 0
        match binary.Read f byteOrder with
        | none => false
        | some (ncmd, f) =>
          let headerSize := if is64bit then 32 else 28
          let f := f.Seek headerSize 0
          hasCodeSignatureFromFile.walk byteOrder ncmd f

/-! ### The command line -/

/-- What a run of the program leaves behind: the lines written to standard output
and to standard error, in order (each is written with a final newline), and the
status passed to `os.Exit`. -/
structure Outcome where
  stdout : List String
  stderr : List String
  exit : Nat
  deriving DecidableEq, Repr

/-- `main`.  `os.Args` is `prog :: args` (it always starts with the program name);
`stat` is `os.Stat` reduced to the size it reports or its error, and `base` is
`filepath.Base`. -/
def main (w : World) (stat : String → Except Error Nat) (base : String → String)
    (prog : String) (args : List String) : Outcome :=
  match args with
  | [] => ⟨[], ["Usage: " ++ base prog ++ " <binary-file>"], 2⟩
  | filename :: _ =>
    match stat filename with
    | .error err => ⟨[], ["Error: " ++ err], 2⟩
    | .ok size =>
      let out := ["File: " ++ filename, "Size: " ++ toString size ++ " bytes"]
      match checkSignature w filename with
      | (_, _, some err) => ⟨out, ["Error checking signature: " ++ err], 2⟩
      | (signed, fileType, none) =>
        let out := out ++ ["Type: " ++ fileType]
        if signed then ⟨out ++ ["Signed: Yes"], [], 0⟩
        else ⟨out ++ ["Signed: No"], [], 1⟩

/-! ## Auxiliary definitions for the statements -/

namespace macho

/-- The shape of a load command as `macho.NewFile` builds it under byte order
`bo`: the raw bytes hold at least the 8-byte command header, and a typed variant
carries the command number for which the library's `switch cmd` builds it
(`LoadCmdSegment` or `LoadCmdSegment64`, `LoadCmdSymtab`, `LoadCmdDysymtab`,
`LoadCmdDylib`, `LoadCmdRpath`); any command may be kept as `LoadBytes`. -/
def Load.fromNewFile (bo : binary.ByteOrder) (l : Load) : Bool :=
  decide (8 ≤ l.Raw.length) &&
  match l, bo.Uint32 l.Raw with
  | .LoadBytes _, _ => true
  | .Segment _ _, some c => c == 0x1 || c == 0x19
  | .Symtab _, some c => c == 0x2
  | .Dysymtab _, some c => c == 0xb
  | .Dylib _, some c => c == 0xc
  | .Rpath _, some c => c == 0x8000001c
  | _, none => false

/-- A file as the library parser returns it: every load command has the shape
`Load.fromNewFile` for the byte order recorded in the file. -/
def File.Parsed (f : File) : Prop :=
  ∀ l ∈ f.Loads, l.fromNewFile f.ByteOrder = true

instance (f : File) : Decidable f.Parsed := by
  unfold File.Parsed; infer_instance

/-- The leading 4-byte command-type field of a load command, decoded in byte
order `bo`; `none` when the command has fewer than four bytes. -/
def Load.cmd (bo : binary.ByteOrder) (l : Load) : Option Nat :=
  bo.Uint32 (l.Raw.take 4)

end macho

/-- A world in which every file name leads to the same four library results. -/
def World.const (p : Except Error pe.File) (m : Except Error macho.File)
    (u : Except Error macho.FatFile) (o : Option (List Nat)) : World :=
  ⟨fun _ => p, fun _ => m, fun _ => u, fun _ => o⟩

/-- The fallback of the prober once the PE attempt is out of the way: the Mach-O
attempt, then the universal-binary attempt, then the failure. -/
def machoThenFat (w : World) (filename : String) : Bool × String × Option Error :=
  match checkMachoSignature w filename with
  | (signed, none) => (signed, "macOS Mach-O", none)
  | (_, some _) =>
    match checkFatMachoSignature w filename with
    | (signed, none) => (signed, "macOS Universal Binary", none)
    | (_, some _) => (false, "Unknown", some "unsupported file format")

/-- A data-directory table of 16 slots whose security slot is `e`. -/
def tableWith (e : pe.DataDirectory) : List pe.DataDirectory :=
  List.replicate 4 pe.DataDirectory.zero ++ e :: List.replicate 11 pe.DataDirectory.zero

/-- A raw load command of 16 bytes with little-endian command number `c`. -/
def rawLE (c : Nat) : List Nat := [c, 0, 0, 0, 16, 0, 0, 0, 0, 0, 0, 0, 0, 0, 0, 0]

/-- A little-endian 64-bit Mach-O without a signature command: a segment named
`__TEXT` and a `LC_UUID` command. -/
def unsignedMacho : macho.File :=
  ⟨.LittleEndian, true, [.Segment "__TEXT" (rawLE 0x19), .LoadBytes (rawLE 0x1b)]⟩

/-- A little-endian 64-bit Mach-O with a `__LINKEDIT` segment followed by a
command of type `0x1d`. -/
def signedMacho : macho.File :=
  ⟨.LittleEndian, true, [.Segment "__LINKEDIT" (rawLE 0x19), .LoadBytes (rawLE 0x1d)]⟩

/-- A 64-bit Mach-O header in little-endian layout (first bytes `CF FA ED FE`,
`ncmds = 1`) followed by one load command of type `0x2` that declares size 0. -/
def undersizedImage : List Nat :=
  [0xcf, 0xfa, 0xed, 0xfe, 0x07, 0, 0, 0x01, 0x03, 0, 0, 0, 0x02, 0, 0, 0,
   0x01, 0, 0, 0, 0x08, 0, 0, 0, 0, 0, 0, 0, 0, 0, 0, 0,
   0x02, 0, 0, 0, 0, 0, 0, 0]

/-- A 32-byte header whose first bytes are `FE ED FA CF`, for which the magic switch
selects little-endian decoding, with the bytes `02 00 00 00` in the `ncmds`
field, followed by a regular 16-byte command of type `0x1b` and by a command of
type `0x2` whose size field holds `04 00 00 00`. -/
def undersizedSecond : List Nat :=
  [0xfe, 0xed, 0xfa, 0xcf, 0x07, 0, 0, 0x01, 0x03, 0, 0, 0, 0x02, 0, 0, 0,
   0x02, 0, 0, 0, 0x18, 0, 0, 0, 0, 0, 0, 0, 0, 0, 0, 0] ++
  ([0x1b, 0, 0, 0, 0x10, 0, 0, 0, 1, 2, 3, 4, 5, 6, 7, 8] ++
   [0x02, 0, 0, 0, 0x04, 0, 0, 0])

/-- The load command of `signedImage`: type `0x1d` and size 16 in little-endian
layout, followed by the offset and the size of the signature data. -/
def signatureCommandLE : List Nat :=
  [0x1d, 0, 0, 0, 0x10, 0, 0, 0, 0, 0x40, 0, 0, 0x10, 0, 0, 0]

/-- A little-endian 64-bit Mach-O image: first bytes `CF FA ED FE`, `ncmds = 1`,
`sizeofcmds = 16`, followed by `signatureCommandLE`. -/
def signedImage : List Nat :=
  [0xcf, 0xfa, 0xed, 0xfe, 0x07, 0, 0, 0x01, 0x03, 0, 0, 0, 0x02, 0, 0, 0,
   0x01, 0, 0, 0, 0x10, 0, 0, 0, 0, 0, 0, 0, 0, 0, 0, 0] ++ signatureCommandLE

/-- The parsed form of `signedImage`: little-endian, 64-bit, one raw command. -/
def signedImageParsed : macho.File :=
  ⟨.LittleEndian, true, [.LoadBytes signatureCommandLE]⟩

/-- The load commands `hasCodeSignature` decodes: those of variant `LoadBytes` with
at least four bytes. -/
def isRaw4 (l : macho.Load) : Bool :=
  match l with
  | .LoadBytes data => decide (4 ≤ data.length)
  | _ => false

/-- The load commands of variant `LoadBytes`. -/
def isLoadBytes (l : macho.Load) : Bool :=
  match l with
  | .LoadBytes _ => true
  | _ => false

/-! ### The load-command loop with its counter -/

/-- Subtraction of `uint32` values as the machine performs it, modulo `2^32`. -/
def sub32 (a b : Nat) : Nat := (a % 4294967296 + 4294967296 - b % 4294967296) % 4294967296

/-- A finished run of the load-command loop: the value returned, the number of loop
bodies entered, and the values of `cmdsize` for which `cmdsize-8` was computed. -/
structure WalkRun where
  result : Bool
  iterations : Nat
  subtracted : List Nat
  deriving DecidableEq, Repr

/-- The loop `for i := uint32(0); i < ncmd; i++` of `hasCodeSignatureFromFile` with its
counter `i`, the increment and the subtraction `cmdsize-8` in `uint32` arithmetic.
The first argument bounds the number of times the loop condition is tested;
`none` means that the bound was reached before the loop ended.  `iters` and
`subs` accumulate the bookkeeping of `WalkRun`. -/
def hasCodeSignatureFromFile.run (byteOrder : binary.ByteOrder) (ncmd : Nat) :
    Nat → Nat → Handle → Nat → List Nat → Option WalkRun
  | 0, _, _, _, _ => none
  | fuel + 1, i, f, iters, subs =>
    if i < ncmd then
      match binary.Read f byteOrder with
      | none => some ⟨false, iters + 1, subs⟩
      | some (cmd, f) =>
        match binary.Read f byteOrder with
        | none => some ⟨false, iters + 1, subs⟩
        | some (cmdsize, f) =>
          if cmd = LC_CODE_SIGNATURE then some ⟨true, iters + 1, subs⟩
          else if cmdsize < 8 then some ⟨false, iters + 1, subs⟩
          else
            hasCodeSignatureFromFile.run byteOrder ncmd fuel ((i + 1) % 4294967296)
              (f.Seek (sub32 cmdsize 8) 1) (iters + 1) (subs ++ [cmdsize])
    else some ⟨false, iters, subs⟩

/-! ## Theorems -/

/-! ### Shared lemmas -/

theorem hasCodeSignature_loop_iff (bo : binary.ByteOrder) (loads : List macho.Load) :
    hasCodeSignature.loop bo loads = true ↔
      ∃ data, macho.Load.LoadBytes data ∈ loads ∧ 4 ≤ data.length ∧
        bo.Uint32 (data.take 4) = some LC_CODE_SIGNATURE := by
  induction loads with
  | nil => simp [hasCodeSignature.loop]
  | cons l rest ih =>
    cases l with
    | LoadBytes d =>
      by_cases hlen : d.length ≥ 4
      · cases hu : bo.Uint32 (d.take 4) with
        | none =>
          simp only [hasCodeSignature.loop, hlen, hu, if_true, ih, List.mem_cons]
          constructor
          · rintro ⟨x, hx, h4, h⟩; exact ⟨x, Or.inr hx, h4, h⟩
          · rintro ⟨x, hx | hx, h4, h⟩
            · cases hx; simp [hu] at h
            · exact ⟨x, hx, h4, h⟩
        | some c =>
          by_cases hc : c = LC_CODE_SIGNATURE
          · simp only [hasCodeSignature.loop, hlen, hu, hc, if_true, true_iff]
            exact ⟨d, List.mem_cons_self _ _, hlen, by rw [hu, hc]⟩
          · simp only [hasCodeSignature.loop, hlen, hu, hc, if_true, if_false, ih, List.mem_cons]
            constructor
            · rintro ⟨x, hx, h4, h⟩; exact ⟨x, Or.inr hx, h4, h⟩
            · rintro ⟨x, hx | hx, h4, h⟩
              · cases hx; rw [hu] at h; exact absurd (Option.some.inj h) hc
              · exact ⟨x, hx, h4, h⟩
      · simp only [hasCodeSignature.loop, hlen, if_false, ih, List.mem_cons]
        constructor
        · rintro ⟨x, hx, h4, h⟩; exact ⟨x, Or.inr hx, h4, h⟩
        · rintro ⟨x, hx | hx, h4, h⟩
          · cases hx; exact absurd h4 hlen
          · exact ⟨x, hx, h4, h⟩
    | _ => simp [hasCodeSignature.loop, ih]

theorem uint32_take_four (bo : binary.ByteOrder) (b : List Nat) :
    bo.Uint32 (b.take 4) = bo.Uint32 b := by
  match b with
  | [] => rfl
  | [_] => cases bo <;> rfl
  | [_, _] => cases bo <;> rfl
  | [_, _, _] => cases bo <;> rfl
  | _ :: _ :: _ :: _ :: _ => cases bo <;> rfl

theorem uint32_some_length (bo : binary.ByteOrder) (b : List Nat) (v : Nat)
    (h : bo.Uint32 b = some v) : 4 ≤ b.length := by
  match b with
  | [] => cases bo <;> simp [binary.ByteOrder.Uint32] at h
  | [_] => cases bo <;> simp [binary.ByteOrder.Uint32] at h
  | [_, _] => cases bo <;> simp [binary.ByteOrder.Uint32] at h
  | [_, _, _] => cases bo <;> simp [binary.ByteOrder.Uint32] at h
  | _ :: _ :: _ :: _ :: _ => simp

theorem checkPESignature_of_entry (w : World) (filename : String) (pefile : pe.File)
    (dd : List pe.DataDirectory) (e : pe.DataDirectory)
    (hopen : w.peOpen filename = .ok pefile)
    (hoh : pefile.OptionalHeader = .OptionalHeader32 dd ∨
      pefile.OptionalHeader = .OptionalHeader64 dd)
    (he : dd.get? pe.IMAGE_DIRECTORY_ENTRY_SECURITY = some e) :
    checkPESignature w filename =
      (decide (e.Size > 0) && decide (e.VirtualAddress > 0), none) := by
  have hlen : dd.length > pe.IMAGE_DIRECTORY_ENTRY_SECURITY := by
    rcases List.get?_eq_some.1 he with ⟨h, -⟩; exact h
  have hget : dd.get ⟨pe.IMAGE_DIRECTORY_ENTRY_SECURITY, hlen⟩ = e := by
    rcases List.get?_eq_some.1 he with ⟨_, h⟩; exact h
  subst hget
  rcases hoh with hoh | hoh <;> simp [checkPESignature, hopen, hoh, hlen]

/-! ### C1 -/

/-- C1: when the PE parser succeeds with a 32-bit or 64-bit optional header whose
data-directory table has an entry `e` at the security index 4, `checkPESignature`
returns no error, and returns true exactly when `e.Size > 0` and
`e.VirtualAddress > 0`; hence false whenever one of the two is zero, and the
answer depends on the entry only, not on the variant of the header. -/
theorem checkPESignature_security_entry (w : World) (filename : String) (pefile : pe.File)
    (dd : List pe.DataDirectory) (e : pe.DataDirectory)
    (hopen : w.peOpen filename = .ok pefile)
    (hoh : pefile.OptionalHeader = .OptionalHeader32 dd ∨
      pefile.OptionalHeader = .OptionalHeader64 dd)
    (he : dd.get? pe.IMAGE_DIRECTORY_ENTRY_SECURITY = some e) :
    (checkPESignature w filename).2 = none ∧
    ((checkPESignature w filename).1 = true ↔ e.Size > 0 ∧ e.VirtualAddress > 0) ∧
    (e.Size = 0 ∨ e.VirtualAddress = 0 → (checkPESignature w filename).1 = false) ∧
    (∀ (w2 : World) (pefile2 : pe.File) (dd2 : List pe.DataDirectory),
      w2.peOpen filename = .ok pefile2 →
      (pefile2.OptionalHeader = .OptionalHeader32 dd2 ∨
        pefile2.OptionalHeader = .OptionalHeader64 dd2) →
      dd2.get? pe.IMAGE_DIRECTORY_ENTRY_SECURITY = some e →
      checkPESignature w2 filename = checkPESignature w filename) := by
  have h := checkPESignature_of_entry w filename pefile dd e hopen hoh he
  refine ⟨by rw [h], ?_, ?_, ?_⟩
  · rw [h]; simp
  · rw [h]; rintro (h0 | h0) <;> simp [h0]
  · intro w2 pefile2 dd2 hopen2 hoh2 he2
    rw [h, checkPESignature_of_entry w2 filename pefile2 dd2 e hopen2 hoh2 he2]

/-- Witness of C1: a 64-bit header with security entry `{0x1000, 0x2000}` is reported
signed, and a 32-bit header with entry `{0, 0}` is reported unsigned. -/
theorem checkPESignature_security_entry_witness :
    (checkPESignature
        (World.const (.ok ⟨.OptionalHeader64 (tableWith ⟨0x1000, 0x2000⟩)⟩)
          (.error "not macho") (.error "not fat") none) "a.exe").1 = true ∧
    (checkPESignature
        (World.const (.ok ⟨.OptionalHeader32 (tableWith ⟨0, 0⟩)⟩)
          (.error "not macho") (.error "not fat") none) "b.exe").1 = false :=
  ⟨(checkPESignature_security_entry
      (World.const (.ok ⟨.OptionalHeader64 (tableWith ⟨0x1000, 0x2000⟩)⟩)
        (.error "not macho") (.error "not fat") none) "a.exe"
      ⟨.OptionalHeader64 (tableWith ⟨0x1000, 0x2000⟩)⟩ (tableWith ⟨0x1000, 0x2000⟩)
      ⟨0x1000, 0x2000⟩ rfl (Or.inr rfl) rfl).2.1.2 ⟨by decide, by decide⟩,
   (checkPESignature_security_entry
      (World.const (.ok ⟨.OptionalHeader32 (tableWith ⟨0, 0⟩)⟩)
        (.error "not macho") (.error "not fat") none) "b.exe"
      ⟨.OptionalHeader32 (tableWith ⟨0, 0⟩)⟩ (tableWith ⟨0, 0⟩)
      ⟨0, 0⟩ rfl (Or.inl rfl) rfl).2.2.1 (Or.inl rfl)⟩

/-! ### C2 -/

/-- C2: for a Mach-O file as the library parser returns it, in either byte order and
either word width, `hasCodeSignature` is true exactly when some load command of
the file has a leading 4-byte command type that decodes, in the byte order
recorded in the file, to `0x1d`; it is false exactly when no load command does. -/
theorem hasCodeSignature_iff_cmd (f : macho.File) (hp : f.Parsed) :
    (hasCodeSignature f = true ↔
      ∃ l ∈ f.Loads, l.cmd f.ByteOrder = some LC_CODE_SIGNATURE) ∧
    (hasCodeSignature f = false ↔
      ∀ l ∈ f.Loads, l.cmd f.ByteOrder ≠ some LC_CODE_SIGNATURE) := by
  have key : hasCodeSignature f = true ↔
      ∃ l ∈ f.Loads, l.cmd f.ByteOrder = some LC_CODE_SIGNATURE := by
    unfold hasCodeSignature
    rw [hasCodeSignature_loop_iff]
    constructor
    · rintro ⟨d, hd, -, h⟩
      exact ⟨_, hd, h⟩
    · rintro ⟨l, hl, h⟩
      have hpl := hp l hl
      simp only [macho.Load.cmd, uint32_take_four] at h
      cases l with
      | LoadBytes d =>
        refine ⟨d, hl, uint32_some_length _ _ _ h, ?_⟩
        rw [uint32_take_four]; exact h
      | Segment n r =>
        simp [macho.Load.fromNewFile, macho.Load.Raw] at hpl h
        rw [h] at hpl; simp [LC_CODE_SIGNATURE] at hpl
      | Symtab r =>
        simp [macho.Load.fromNewFile, macho.Load.Raw] at hpl h
        rw [h] at hpl; simp [LC_CODE_SIGNATURE] at hpl
      | Dysymtab r =>
        simp [macho.Load.fromNewFile, macho.Load.Raw] at hpl h
        rw [h] at hpl; simp [LC_CODE_SIGNATURE] at hpl
      | Dylib r =>
        simp [macho.Load.fromNewFile, macho.Load.Raw] at hpl h
        rw [h] at hpl; simp [LC_CODE_SIGNATURE] at hpl
      | Rpath r =>
        simp [macho.Load.fromNewFile, macho.Load.Raw] at hpl h
        rw [h] at hpl; simp [LC_CODE_SIGNATURE] at hpl
  refine ⟨key, ?_⟩
  rw [← Bool.not_eq_true, key]
  simp

/-- Witness of C2: the two sample files are in parsed shape; the one holding a
command of type `0x1d` is reported signed and the other one is not. -/
theorem hasCodeSignature_iff_cmd_witness :
    signedMacho.Parsed ∧ hasCodeSignature signedMacho = true ∧
    unsignedMacho.Parsed ∧ hasCodeSignature unsignedMacho = false :=
  ⟨by decide,
   (hasCodeSignature_iff_cmd signedMacho (by decide)).1.2
     ⟨.LoadBytes (rawLE 0x1d), by decide, by decide⟩,
   by decide,
   (hasCodeSignature_iff_cmd unsignedMacho (by decide)).2.2 (by decide)⟩

/-! ### C3 -/

theorem checkFatMachoSignature_loop_eq (arches : List macho.FatArch) :
    checkFatMachoSignature.loop arches =
      (arches.any (fun arch => hasCodeSignature arch.File), none) := by
  induction arches with
  | nil => rfl
  | cons a rest ih =>
    by_cases h : hasCodeSignature a.File = true
    · simp [checkFatMachoSignature.loop, h]
    · simp [checkFatMachoSignature.loop, h, ih]

/-- C3: when the universal-binary parser succeeds, `checkFatMachoSignature` returns no
error, and returns true exactly when `hasCodeSignature` is true for at least one
slice of the container. -/
theorem checkFatMachoSignature_iff_any (w : World) (filename : String)
    (fatFile : macho.FatFile) (hopen : w.machoOpenFat filename = .ok fatFile) :
    (checkFatMachoSignature w filename).2 = none ∧
    ((checkFatMachoSignature w filename).1 = true ↔
      ∃ arch ∈ fatFile.Arches, hasCodeSignature arch.File = true) := by
  simp [checkFatMachoSignature, hopen, checkFatMachoSignature_loop_eq]

/-- Witness of C3: a container of two slices, the first unsigned and the second with
a command of type `0x1d`, is reported signed without error. -/
theorem checkFatMachoSignature_iff_any_witness :
    hasCodeSignature unsignedMacho = false ∧
    checkFatMachoSignature
      (World.const (.error "not pe") (.error "not macho")
        (.ok ⟨[⟨unsignedMacho⟩, ⟨signedMacho⟩]⟩) none) "universal" = (true, none) :=
  ⟨by decide,
   Prod.ext
    ((checkFatMachoSignature_iff_any
      (World.const (.error "not pe") (.error "not macho")
        (.ok ⟨[⟨unsignedMacho⟩, ⟨signedMacho⟩]⟩) none) "universal"
      ⟨[⟨unsignedMacho⟩, ⟨signedMacho⟩]⟩ rfl).2.2 ⟨⟨signedMacho⟩, by decide, by decide⟩)
    (checkFatMachoSignature_iff_any
      (World.const (.error "not pe") (.error "not macho")
        (.ok ⟨[⟨unsignedMacho⟩, ⟨signedMacho⟩]⟩) none) "universal"
      ⟨[⟨unsignedMacho⟩, ⟨signedMacho⟩]⟩ rfl).1⟩

/-! ### C4 -/

theorem checkPESignature_congr (w w2 : World) (filename : String)
    (h : w2.peOpen filename = w.peOpen filename) :
    checkPESignature w2 filename = checkPESignature w filename := by
  simp [checkPESignature, h]

theorem checkMachoSignature_congr (w w2 : World) (filename : String)
    (h : w2.machoOpen filename = w.machoOpen filename) :
    checkMachoSignature w2 filename = checkMachoSignature w filename := by
  simp [checkMachoSignature, h]

theorem checkSignature_of_pe (w : World) (filename : String)
    (h : (checkPESignature w filename).2 = none) :
    checkSignature w filename = ((checkPESignature w filename).1, "Windows PE", none) := by
  unfold checkSignature
  rcases hp : checkPESignature w filename with ⟨s, _ | e⟩
  · rfl
  · rw [hp] at h; cases h

theorem checkSignature_of_pe_error (w : World) (filename : String)
    (h : (checkPESignature w filename).2 ≠ none) :
    checkSignature w filename = machoThenFat w filename := by
  unfold checkSignature machoThenFat
  rcases hp : checkPESignature w filename with ⟨s, _ | e⟩
  · rw [hp] at h; exact absurd rfl h
  · rfl

theorem machoThenFat_of_macho (w : World) (filename : String)
    (h : (checkMachoSignature w filename).2 = none) :
    machoThenFat w filename = ((checkMachoSignature w filename).1, "macOS Mach-O", none) := by
  unfold machoThenFat
  rcases hp : checkMachoSignature w filename with ⟨s, _ | e⟩
  · rfl
  · rw [hp] at h; cases h

theorem machoThenFat_of_macho_error (w : World) (filename : String)
    (h : (checkMachoSignature w filename).2 ≠ none) :
    machoThenFat w filename =
      match checkFatMachoSignature w filename with
      | (signed, none) => (signed, "macOS Universal Binary", none)
      | (_, some _) => (false, "Unknown", some "unsupported file format") := by
  unfold machoThenFat
  rcases hp : checkMachoSignature w filename with ⟨s, _ | e⟩
  · rw [hp] at h; exact absurd rfl h
  · rfl

/-- C4: `checkSignature` returns the signed value and the label of the first attempt
without error, in the order PE, Mach-O, universal binary.  An attempt that
succeeds fixes the result whatever the later parsers return: the result is the
same in every world that agrees on the parsers consulted so far. -/
theorem checkSignature_first_success (w : World) (filename : String) :
    ((checkPESignature w filename).2 = none →
      ∀ w2 : World, w2.peOpen filename = w.peOpen filename →
        checkSignature w2 filename = ((checkPESignature w filename).1, "Windows PE", none)) ∧
    ((checkPESignature w filename).2 ≠ none → (checkMachoSignature w filename).2 = none →
      ∀ w2 : World, w2.peOpen filename = w.peOpen filename →
        w2.machoOpen filename = w.machoOpen filename →
        checkSignature w2 filename =
          ((checkMachoSignature w filename).1, "macOS Mach-O", none)) ∧
    ((checkPESignature w filename).2 ≠ none → (checkMachoSignature w filename).2 ≠ none →
      (checkFatMachoSignature w filename).2 = none →
        checkSignature w filename =
          ((checkFatMachoSignature w filename).1, "macOS Universal Binary", none)) := by
  refine ⟨?_, ?_, ?_⟩
  · intro h w2 hw
    have hc := checkPESignature_congr w w2 filename hw
    rw [checkSignature_of_pe w2 filename (by rw [hc]; exact h), hc]
  · intro hpe hm w2 hw hw2
    have hc := checkPESignature_congr w w2 filename hw
    have hc2 := checkMachoSignature_congr w w2 filename hw2
    rw [checkSignature_of_pe_error w2 filename (by rw [hc]; exact hpe),
      machoThenFat_of_macho w2 filename (by rw [hc2]; exact hm), hc2]
  · intro hpe hm hf
    rw [checkSignature_of_pe_error w filename hpe, machoThenFat_of_macho_error w filename hm]
    rcases hp : checkFatMachoSignature w filename with ⟨s, _ | e⟩
    · rfl
    · rw [hp] at hf; cases hf

/-- Witness of C4: a file that parses as an unsigned PE and would also parse as a
signed Mach-O and as a signed universal binary is reported as unsigned
`Windows PE`. -/
theorem checkSignature_first_success_witness :
    checkMachoSignature
      (World.const (.ok ⟨.OptionalHeader64 (tableWith ⟨0, 0⟩)⟩) (.ok signedMacho)
        (.ok ⟨[⟨signedMacho⟩]⟩) none) "ambiguous" = (true, none) ∧
    checkSignature
      (World.const (.ok ⟨.OptionalHeader64 (tableWith ⟨0, 0⟩)⟩) (.ok signedMacho)
        (.ok ⟨[⟨signedMacho⟩]⟩) none) "ambiguous" = (false, "Windows PE", none) :=
  ⟨by decide,
   (checkSignature_first_success
      (World.const (.ok ⟨.OptionalHeader64 (tableWith ⟨0, 0⟩)⟩) (.error "not macho")
        (.error "not fat") none) "ambiguous").1 rfl
      (World.const (.ok ⟨.OptionalHeader64 (tableWith ⟨0, 0⟩)⟩) (.ok signedMacho)
        (.ok ⟨[⟨signedMacho⟩]⟩) none) rfl⟩

/-! ### C5 -/

/-- C5: `checkSignature` returns an error exactly when the PE, the Mach-O and the
universal-binary attempt all return an error; the result is then
`(false, "Unknown", "unsupported file format")`, and otherwise the error is nil
and the label is one of the three format labels. -/
theorem checkSignature_error_iff (w : World) (filename : String) :
    ((checkSignature w filename).2.2 ≠ none ↔
      (checkPESignature w filename).2 ≠ none ∧ (checkMachoSignature w filename).2 ≠ none ∧
        (checkFatMachoSignature w filename).2 ≠ none) ∧
    ((checkSignature w filename).2.2 ≠ none →
      checkSignature w filename = (false, "Unknown", some "unsupported file format")) ∧
    ((checkSignature w filename).2.2 = none →
      (checkSignature w filename).2.1 = "Windows PE" ∨
      (checkSignature w filename).2.1 = "macOS Mach-O" ∨
      (checkSignature w filename).2.1 = "macOS Universal Binary") := by
  unfold checkSignature
  rcases checkPESignature w filename with ⟨s1, _ | e1⟩ <;>
    rcases checkMachoSignature w filename with ⟨s2, _ | e2⟩ <;>
    rcases checkFatMachoSignature w filename with ⟨s3, _ | e3⟩ <;> simp

/-! ### C6 -/

/-- C6: when the PE parser succeeds with an optional header that is neither the 32-bit
nor the 64-bit variant (no optional header included), `checkPESignature` returns
the error "unsupported PE format", so never the answer "not signed" without
error; with a 32-bit or 64-bit optional header it returns no error. -/
theorem checkPESignature_unsupported (w : World) (filename : String) (pefile : pe.File)
    (hopen : w.peOpen filename = .ok pefile) :
    (((∀ dd, pefile.OptionalHeader ≠ .OptionalHeader32 dd) ∧
        (∀ dd, pefile.OptionalHeader ≠ .OptionalHeader64 dd)) →
      checkPESignature w filename = (false, some "unsupported PE format") ∧
      checkPESignature w filename ≠ (false, none)) ∧
    ((∃ dd, pefile.OptionalHeader = .OptionalHeader32 dd ∨
        pefile.OptionalHeader = .OptionalHeader64 dd) →
      (checkPESignature w filename).2 = none) := by
  constructor
  · rintro ⟨h32, h64⟩
    have h : checkPESignature w filename = (false, some "unsupported PE format") := by
      cases hoh : pefile.OptionalHeader with
      | nil => simp [checkPESignature, hopen, hoh]
      | other => simp [checkPESignature, hopen, hoh]
      | OptionalHeader32 dd => exact absurd hoh (h32 dd)
      | OptionalHeader64 dd => exact absurd hoh (h64 dd)
    exact ⟨h, by rw [h]; simp⟩
  · rintro ⟨dd, hoh | hoh⟩ <;>
      by_cases hlen : dd.length > pe.IMAGE_DIRECTORY_ENTRY_SECURITY <;>
      simp [checkPESignature, hopen, hoh, hlen]

/-- Witness of C6: a PE without optional header yields the error "unsupported PE
format", a PE with a 64-bit optional header yields no error. -/
theorem checkPESignature_unsupported_witness :
    checkPESignature (World.const (.ok ⟨.nil⟩) (.error "not macho") (.error "not fat") none)
      "obj.o" = (false, some "unsupported PE format") ∧
    (checkPESignature
      (World.const (.ok ⟨.OptionalHeader64 (tableWith ⟨0, 0⟩)⟩) (.error "not macho")
        (.error "not fat") none) "a.exe").2 = none :=
  ⟨((checkPESignature_unsupported
      (World.const (.ok ⟨.nil⟩) (.error "not macho") (.error "not fat") none) "obj.o"
      ⟨.nil⟩ rfl).1 ⟨fun _ h => (by cases h), fun _ h => (by cases h)⟩).1,
   (checkPESignature_unsupported
      (World.const (.ok ⟨.OptionalHeader64 (tableWith ⟨0, 0⟩)⟩) (.error "not macho")
        (.error "not fat") none) "a.exe"
      ⟨.OptionalHeader64 (tableWith ⟨0, 0⟩)⟩ rfl).2 ⟨_, Or.inr rfl⟩⟩

/-! ### C7 -/

/-- C7: when the PE parser succeeds with a 32-bit or 64-bit optional header whose
data-directory table has at most 4 entries, so that the security index 4 does
not exist, `checkPESignature` returns `(false, nil)`. -/
theorem checkPESignature_short_table (w : World) (filename : String) (pefile : pe.File)
    (dd : List pe.DataDirectory) (hopen : w.peOpen filename = .ok pefile)
    (hoh : pefile.OptionalHeader = .OptionalHeader32 dd ∨
      pefile.OptionalHeader = .OptionalHeader64 dd)
    (hlen : dd.length ≤ pe.IMAGE_DIRECTORY_ENTRY_SECURITY) :
    checkPESignature w filename = (false, none) := by
  have hlen2 : ¬ dd.length > pe.IMAGE_DIRECTORY_ENTRY_SECURITY := Nat.not_lt.mpr hlen
  rcases hoh with hoh | hoh <;>
    simp [checkPESignature, hopen, hoh, hlen2, pe.DataDirectory.zero]

/-- Witness of C7: a 32-bit header whose table has the four slots 0 to 3, all
populated, is reported unsigned without error. -/
theorem checkPESignature_short_table_witness :
    (List.replicate 4 (⟨0x1000, 0x2000⟩ : pe.DataDirectory)).length ≤
      pe.IMAGE_DIRECTORY_ENTRY_SECURITY ∧
    checkPESignature
      (World.const (.ok ⟨.OptionalHeader32 (List.replicate 4 ⟨0x1000, 0x2000⟩)⟩)
        (.error "not macho") (.error "not fat") none) "old.exe" = (false, none) :=
  ⟨by decide,
   checkPESignature_short_table
      (World.const (.ok ⟨.OptionalHeader32 (List.replicate 4 ⟨0x1000, 0x2000⟩)⟩)
        (.error "not macho") (.error "not fat") none) "old.exe"
      ⟨.OptionalHeader32 (List.replicate 4 ⟨0x1000, 0x2000⟩)⟩
      (List.replicate 4 ⟨0x1000, 0x2000⟩) rfl (Or.inl rfl) (by decide)⟩

/-! ### C8 -/

theorem checkMachoSignature_loop_eq (machoFile : macho.File) (loads : List macho.Load) :
    checkMachoSignature.loop machoFile loads = (hasCodeSignature machoFile, none) := by
  induction loads with
  | nil => rfl
  | cons l rest ih =>
    cases l with
    | Segment n r =>
      by_cases hn : n = "__LINKEDIT"
      · simp [checkMachoSignature.loop, hn]
      · simp [checkMachoSignature.loop, hn, ih]
    | _ => simp [checkMachoSignature.loop, ih]

/-- C8: when the Mach-O parser succeeds, `checkMachoSignature` returns
`(hasCodeSignature file, nil)`, the scan over all load commands, whether or not
a segment named `__LINKEDIT` occurs among the load commands and wherever it
stands. -/
theorem checkMachoSignature_eq_scan (w : World) (filename : String)
    (machoFile : macho.File) (hopen : w.machoOpen filename = .ok machoFile) :
    checkMachoSignature w filename = (hasCodeSignature machoFile, none) := by
  simp [checkMachoSignature, hopen, checkMachoSignature_loop_eq]

/-- Witness of C8: a file whose `__LINKEDIT` segment stands before the signature
command, and a file without such a segment. -/
theorem checkMachoSignature_eq_scan_witness :
    checkMachoSignature (World.const (.error "not pe") (.ok signedMacho) (.error "not fat") none)
      "signed" = (true, none) ∧
    checkMachoSignature (World.const (.error "not pe") (.ok unsignedMacho) (.error "not fat") none)
      "unsigned" = (false, none) :=
  ⟨checkMachoSignature_eq_scan
      (World.const (.error "not pe") (.ok signedMacho) (.error "not fat") none) "signed"
      signedMacho rfl,
   checkMachoSignature_eq_scan
      (World.const (.error "not pe") (.ok unsignedMacho) (.error "not fat") none) "unsigned"
      unsignedMacho rfl⟩

/-! ### C9 -/

/-- C9: whenever the PE attempt returns an error, be it the error of the PE parser
or "unsupported PE format" for a parsed file, `checkSignature` returns what the
Mach-O-then-universal fallback returns; the error of an attempt is never passed
on, the only error of `checkSignature` being "unsupported file format". -/
theorem checkSignature_pe_error_fallback (w : World) (filename : String) :
    ((checkPESignature w filename).2 ≠ none →
      checkSignature w filename = machoThenFat w filename) ∧
    (∀ err, w.peOpen filename = .error err →
      checkSignature w filename = machoThenFat w filename) ∧
    (∀ pefile, w.peOpen filename = .ok pefile →
      (checkPESignature w filename).2 = some "unsupported PE format" →
      checkSignature w filename = machoThenFat w filename) ∧
    (∀ err, (checkSignature w filename).2.2 = some err → err = "unsupported file format") := by
  refine ⟨checkSignature_of_pe_error w filename, ?_, ?_, ?_⟩
  · intro err herr
    apply checkSignature_of_pe_error
    simp [checkPESignature, herr]
  · intro pefile _ herr
    apply checkSignature_of_pe_error
    rw [herr]; simp
  · intro err
    unfold checkSignature
    rcases checkPESignature w filename with ⟨s1, _ | e1⟩ <;>
      rcases checkMachoSignature w filename with ⟨s2, _ | e2⟩ <;>
      rcases checkFatMachoSignature w filename with ⟨s3, _ | e3⟩ <;>
      simp [eq_comm]

/-- Witness of C9: a file the PE parser accepts but whose optional header is
unsupported, and which parses as a signed Mach-O, is reported as signed
`macOS Mach-O`; a file rejected by all three parsers yields "unsupported file
format" and not the message of a parser. -/
theorem checkSignature_pe_error_fallback_witness :
    checkSignature (World.const (.ok ⟨.other⟩) (.ok signedMacho) (.error "not fat") none)
      "odd" = (true, "macOS Mach-O", none) ∧
    checkSignature (World.const (.error "not pe") (.error "not macho") (.error "not fat") none)
      "notes.txt" = (false, "Unknown", some "unsupported file format") :=
  ⟨((checkSignature_pe_error_fallback
      (World.const (.ok ⟨.other⟩) (.ok signedMacho) (.error "not fat") none) "odd").2.2.1
      ⟨.other⟩ rfl rfl).trans (by decide),
   ((checkSignature_pe_error_fallback
      (World.const (.error "not pe") (.error "not macho") (.error "not fat") none)
      "notes.txt").2.1 "not pe" rfl).trans (by decide)⟩

/-! ### C10 -/

theorem read_of_drop (bo : binary.ByteOrder) (data : List Nat) (pos v : Nat)
    (h : bo.Uint32 (data.drop pos) = some v) :
    binary.Read ⟨data, pos⟩ bo = some (v, ⟨data, pos + 4⟩) := by
  simp [binary.Read, h]

theorem walk_undersized (bo : binary.ByteOrder) (data : List Nat) (pos n t sz : Nat)
    (ht : bo.Uint32 (data.drop pos) = some t)
    (hsz : bo.Uint32 (data.drop (pos + 4)) = some sz) (hlt : sz < 8) :
    hasCodeSignatureFromFile.walk bo (n + 1) ⟨data, pos⟩ = decide (t = LC_CODE_SIGNATURE) := by
  rw [hasCodeSignatureFromFile.walk, read_of_drop bo data pos t ht]
  simp only
  rw [read_of_drop bo data (pos + 4) sz hsz]
  by_cases h : t = LC_CODE_SIGNATURE <;> simp [h, hlt]

/-- C10 at the image `undersizedImage`: a 64-bit header with magic bytes
`CF FA ED FE` and `ncmds = 1`, whose only load command has type 2 and a size
field of zero, below the 8-byte minimum in either byte order.
`hasCodeSignatureFromFile` returns false there, the value it returns for an
absent signature, and its loop does so in either byte order; where the library
parser rejects the file, `checkMachoSignature` returns the error of the parser
and no answer. -/
theorem hasCodeSignatureFromFile_undersizedImage :
    binary.ByteOrder.LittleEndian.Uint32 undersizedImage = some 0xfeedfacf ∧
    binary.ByteOrder.LittleEndian.Uint32 (undersizedImage.drop 16) = some 1 ∧
    binary.ByteOrder.LittleEndian.Uint32 (undersizedImage.drop 32) = some 2 ∧
    binary.ByteOrder.LittleEndian.Uint32 (undersizedImage.drop 36) = some 0 ∧
    binary.ByteOrder.BigEndian.Uint32 (undersizedImage.drop 36) = some 0 ∧
    hasCodeSignatureFromFile
      (World.const (.error "not pe") (.error "invalid command block size") (.error "not fat")
        (some undersizedImage)) "a.out" = false ∧
    hasCodeSignatureFromFile.walk .LittleEndian 1 ⟨undersizedImage, 32⟩ = false ∧
    hasCodeSignatureFromFile.walk .BigEndian 0x01000000 ⟨undersizedImage, 32⟩ = false ∧
    checkMachoSignature
      (World.const (.error "not pe") (.error "invalid command block size") (.error "not fat")
        (some undersizedImage)) "a.out" = (false, some "invalid command block size") := by
  refine ⟨rfl, rfl, rfl, rfl, rfl, by decide, ?_, ?_, by decide⟩
  · exact walk_undersized .LittleEndian undersizedImage 32 0 2 0 rfl rfl (by decide)
  · exact walk_undersized .BigEndian undersizedImage 32 16777215 0x02000000 0 rfl rfl (by decide)

/-! ### C11 -/

theorem size_line_ne_signed (s t : String) (ht : t = "Signed: Yes" ∨ t = "Signed: No") :
    "Size: " ++ s ≠ t := by
  intro h
  have hd := congrArg String.data h
  rw [String.data_append] at hd
  rcases ht with ht | ht <;> subst ht <;> simp at hd

theorem main_of_error (w : World) (stat : String → Except Error Nat) (base : String → String)
    (prog filename : String) (rest : List String) (size : Nat) (err : Error)
    (hstat : stat filename = .ok size) (h : (checkSignature w filename).2.2 = some err) :
    main w stat base prog (filename :: rest) =
      ⟨["File: " ++ filename, "Size: " ++ toString size ++ " bytes"],
        ["Error checking signature: " ++ err], 2⟩ := by
  rcases hc : checkSignature w filename with ⟨signed, fileType, _ | e⟩
  · rw [hc] at h; cases h
  · rw [hc] at h; cases h
    simp [main, hstat, hc]

theorem main_of_success (w : World) (stat : String → Except Error Nat) (base : String → String)
    (prog filename : String) (rest : List String) (size : Nat) (signed : Bool)
    (fileType : String)
    (hstat : stat filename = .ok size) (h : checkSignature w filename = (signed, fileType, none)) :
    main w stat base prog (filename :: rest) =
      ⟨["File: " ++ filename, "Size: " ++ toString size ++ " bytes", "Type: " ++ fileType,
          if signed then "Signed: Yes" else "Signed: No"], [], if signed then 0 else 1⟩ := by
  cases signed <;> simp [main, hstat, h]

/-- C11: the exit status of `main` is a function of the classification.  Without an
argument, or when `os.Stat` fails, the status is 2.  When `os.Stat` succeeds the
status is 0 exactly when `checkSignature` returns `(true, _, nil)`, 1 exactly
when it returns `(false, _, nil)` and 2 exactly when it returns an error.  In
every run the last line of standard output is "Signed: Yes" exactly when the
status is 0 and "Signed: No" exactly when it is 1. -/
theorem main_exit_status (w : World) (stat : String → Except Error Nat)
    (base : String → String) (prog : String) :
    (main w stat base prog []).exit = 2 ∧
    (∀ filename rest err, stat filename = .error err →
      (main w stat base prog (filename :: rest)).exit = 2) ∧
    (∀ filename rest size, stat filename = .ok size →
      ((main w stat base prog (filename :: rest)).exit = 0 ↔
        ∃ fileType, checkSignature w filename = (true, fileType, none)) ∧
      ((main w stat base prog (filename :: rest)).exit = 1 ↔
        ∃ fileType, checkSignature w filename = (false, fileType, none)) ∧
      ((main w stat base prog (filename :: rest)).exit = 2 ↔
        (checkSignature w filename).2.2 ≠ none)) ∧
    (∀ args,
      ((main w stat base prog args).stdout.getLast? = some "Signed: Yes" ↔
        (main w stat base prog args).exit = 0) ∧
      ((main w stat base prog args).stdout.getLast? = some "Signed: No" ↔
        (main w stat base prog args).exit = 1)) := by
  refine ⟨rfl, ?_, ?_, ?_⟩
  · intro filename rest err hstat
    simp [main, hstat]
  · intro filename rest size hstat
    rcases hc : checkSignature w filename with ⟨signed, fileType, _ | e⟩
    · rw [main_of_success w stat base prog filename rest size signed fileType hstat hc]
      cases signed <;> simp
    · rw [main_of_error w stat base prog filename rest size e hstat (by rw [hc])]
      simp
  · intro args
    cases args with
    | nil => simp [main]
    | cons filename rest =>
      cases hstat : stat filename with
      | error err => simp [main, hstat]
      | ok size =>
        rcases hc : checkSignature w filename with ⟨signed, fileType, _ | e⟩
        · rw [main_of_success w stat base prog filename rest size signed fileType hstat hc]
          cases signed <;> simp [List.getLast?]
        · rw [main_of_error w stat base prog filename rest size e hstat (by rw [hc])]
          have h1 := size_line_ne_signed (toString size ++ " bytes") "Signed: Yes" (Or.inl rfl)
          have h2 := size_line_ne_signed (toString size ++ " bytes") "Signed: No" (Or.inr rfl)
          rw [← String.append_assoc] at h1 h2
          simp [List.getLast?, h1, h2]

/-- Witness of C11: a signed PE gives status 0, an unsigned one status 1, a file no
parser accepts status 2. -/
theorem main_exit_status_witness :
    (main (World.const (.ok ⟨.OptionalHeader64 (tableWith ⟨0x1000, 0x2000⟩)⟩)
        (.error "not macho") (.error "not fat") none)
      (fun _ => .ok 4096) id "signcheck" ["a.exe"]).exit = 0 ∧
    (main (World.const (.ok ⟨.OptionalHeader64 (tableWith ⟨0, 0⟩)⟩)
        (.error "not macho") (.error "not fat") none)
      (fun _ => .ok 4096) id "signcheck" ["b.exe"]).exit = 1 ∧
    (main (World.const (.error "not pe") (.error "not macho") (.error "not fat") none)
      (fun _ => .ok 12) id "signcheck" ["notes.txt"]).exit = 2 :=
  ⟨((main_exit_status
      (World.const (.ok ⟨.OptionalHeader64 (tableWith ⟨0x1000, 0x2000⟩)⟩)
        (.error "not macho") (.error "not fat") none)
      (fun _ => .ok 4096) id "signcheck").2.2.1 "a.exe" [] 4096 rfl).1.2
      ⟨"Windows PE", by decide⟩,
   ((main_exit_status
      (World.const (.ok ⟨.OptionalHeader64 (tableWith ⟨0, 0⟩)⟩)
        (.error "not macho") (.error "not fat") none)
      (fun _ => .ok 4096) id "signcheck").2.2.1 "b.exe" [] 4096 rfl).2.1.2
      ⟨"Windows PE", by decide⟩,
   ((main_exit_status
      (World.const (.error "not pe") (.error "not macho") (.error "not fat") none)
      (fun _ => .ok 12) id "signcheck").2.2.1 "notes.txt" [] 12 rfl).2.2.2
      (by decide)⟩

/-! ### C12 -/

/-- C12 at the little-endian 64-bit image `signedImage`: the image is well formed
(its magic, its `ncmds = 1` and the type `0x1d` and size 16 of its only command
decode in little-endian order) and `hasCodeSignature` reports the signature on
the parsed form, but `hasCodeSignatureFromFile` returns false, because it
decodes the file in big-endian order. -/
theorem hasCodeSignatureFromFile_signedImage :
    binary.ByteOrder.LittleEndian.Uint32 signedImage = some 0xfeedfacf ∧
    binary.ByteOrder.LittleEndian.Uint32 (signedImage.drop 16) = some 1 ∧
    signedImage.drop 32 = signatureCommandLE ∧
    binary.ByteOrder.LittleEndian.Uint32 signatureCommandLE = some LC_CODE_SIGNATURE ∧
    binary.ByteOrder.LittleEndian.Uint32 (signatureCommandLE.drop 4) =
      some signatureCommandLE.length ∧
    signedImageParsed.Parsed ∧
    hasCodeSignature signedImageParsed = true ∧
    hasCodeSignatureFromFile
      (World.const (.error "not pe") (.ok signedImageParsed) (.error "not fat")
        (some signedImage)) "a.out" = false := by
  refine ⟨rfl, rfl, rfl, rfl, rfl, by decide, by decide, by decide⟩

/-! ### C13 -/

/-- C13 at the four magic byte sequences: the magic switch, fed with the little-endian
reading of the first four bytes, selects little-endian decoding for
`FE ED FA CE` and `FE ED FA CF` and big-endian decoding for `CE FA ED FE` and
`CF FA ED FE`; in the selected order the four bytes decode to `0xcefaedfe` or
`0xcffaedfe`, never to `0xfeedface` or `0xfeedfacf`.  The width flag is set for
the two 64-bit sequences only. -/
theorem layout_of_magic_bytes :
    (binary.ByteOrder.LittleEndian.Uint32 [0xfe, 0xed, 0xfa, 0xce]).bind
        hasCodeSignatureFromFile.layout = some (.LittleEndian, false) ∧
    (binary.ByteOrder.LittleEndian.Uint32 [0xce, 0xfa, 0xed, 0xfe]).bind
        hasCodeSignatureFromFile.layout = some (.BigEndian, false) ∧
    (binary.ByteOrder.LittleEndian.Uint32 [0xfe, 0xed, 0xfa, 0xcf]).bind
        hasCodeSignatureFromFile.layout = some (.LittleEndian, true) ∧
    (binary.ByteOrder.LittleEndian.Uint32 [0xcf, 0xfa, 0xed, 0xfe]).bind
        hasCodeSignatureFromFile.layout = some (.BigEndian, true) ∧
    binary.ByteOrder.LittleEndian.Uint32 [0xfe, 0xed, 0xfa, 0xce] = some 0xcefaedfe ∧
    binary.ByteOrder.BigEndian.Uint32 [0xce, 0xfa, 0xed, 0xfe] = some 0xcefaedfe ∧
    binary.ByteOrder.LittleEndian.Uint32 [0xfe, 0xed, 0xfa, 0xcf] = some 0xcffaedfe ∧
    binary.ByteOrder.BigEndian.Uint32 [0xcf, 0xfa, 0xed, 0xfe] = some 0xcffaedfe ∧
    binary.ByteOrder.BigEndian.Uint32 [0xfe, 0xed, 0xfa, 0xce] = some 0xfeedface ∧
    binary.ByteOrder.LittleEndian.Uint32 [0xce, 0xfa, 0xed, 0xfe] = some 0xfeedface ∧
    binary.ByteOrder.BigEndian.Uint32 [0xfe, 0xed, 0xfa, 0xcf] = some 0xfeedfacf ∧
    binary.ByteOrder.LittleEndian.Uint32 [0xcf, 0xfa, 0xed, 0xfe] = some 0xfeedfacf := by
  refine ⟨by decide, by decide, by decide, by decide, rfl, rfl, rfl, rfl, rfl, rfl, rfl, rfl⟩

/-! ### C14 -/

/-- C14, as the code has it: `main` prints the lines `File:` and `Size:` before it
classifies.  When `os.Stat` succeeds and `checkSignature` returns an error,
standard output holds exactly these two lines, neither a `Type:` nor a
`Signed:` line, standard error holds the error and the status is 2; for a
successful classification standard output holds the four lines File, Size,
Type, Signed in that order.  Without an argument, or when `os.Stat` fails,
nothing is written to standard output. -/
theorem main_stdout_lines (w : World) (stat : String → Except Error Nat)
    (base : String → String) (prog filename : String) (rest : List String) (size : Nat)
    (hstat : stat filename = .ok size) :
    (∀ err, (checkSignature w filename).2.2 = some err →
      main w stat base prog (filename :: rest) =
        ⟨["File: " ++ filename, "Size: " ++ toString size ++ " bytes"],
          ["Error checking signature: " ++ err], 2⟩) ∧
    (∀ signed fileType, checkSignature w filename = (signed, fileType, none) →
      (main w stat base prog (filename :: rest)).stdout =
        ["File: " ++ filename, "Size: " ++ toString size ++ " bytes", "Type: " ++ fileType,
          if signed then "Signed: Yes" else "Signed: No"]) ∧
    (main w stat base prog []).stdout = [] ∧
    (∀ (stat2 : String → Except Error Nat) err, stat2 filename = .error err →
      (main w stat2 base prog (filename :: rest)).stdout = []) := by
  refine ⟨?_, ?_, rfl, ?_⟩
  · intro err h
    exact main_of_error w stat base prog filename rest size err hstat h
  · intro signed fileType h
    rw [main_of_success w stat base prog filename rest size signed fileType hstat h]
  · intro stat2 err h
    simp [main, h]

/-- Witness of C14 as amended: for a text file of 12 bytes that no parser accepts,
standard output holds the two lines File and Size. -/
theorem main_stdout_lines_witness :
    main (World.const (.error "not pe") (.error "not macho") (.error "not fat") none)
      (fun _ => .ok 12) id "signcheck" ["notes.txt"] =
        ⟨["File: " ++ "notes.txt", "Size: " ++ toString 12 ++ " bytes"],
          ["Error checking signature: " ++ "unsupported file format"], 2⟩ :=
  (main_stdout_lines
    (World.const (.error "not pe") (.error "not macho") (.error "not fat") none)
    (fun _ => .ok 12) id "signcheck" "notes.txt" [] 12 rfl).1 "unsupported file format"
    (by decide)

/-- Counterexample to C14 as stated: `checkSignature` returns an error for a file no
parser accepts, and `main` has nevertheless written the lines `File:` and
`Size:` to standard output. -/
theorem main_stdout_lines_counterexample :
    (checkSignature
      (World.const (.error "not pe") (.error "not macho") (.error "not fat") none)
      "notes.txt").2.2 = some "unsupported file format" ∧
    (main (World.const (.error "not pe") (.error "not macho") (.error "not fat") none)
      (fun _ => .ok 12) id "signcheck" ["notes.txt"]).stdout =
        ["File: notes.txt", "Size: 12 bytes"] ∧
    (main (World.const (.error "not pe") (.error "not macho") (.error "not fat") none)
      (fun _ => .ok 12) id "signcheck" ["notes.txt"]).stdout ≠ [] := by
  refine ⟨by decide, by decide, by decide⟩

/-! ### C15 -/

theorem hasCodeSignature_loop_filter (bo : binary.ByteOrder) (loads : List macho.Load) :
    hasCodeSignature.loop bo (loads.filter isRaw4) = hasCodeSignature.loop bo loads := by
  rw [Bool.eq_iff_iff, hasCodeSignature_loop_iff, hasCodeSignature_loop_iff]
  constructor
  · rintro ⟨d, hd, h4, h⟩
    exact ⟨d, (List.mem_filter.1 hd).1, h4, h⟩
  · rintro ⟨d, hd, h4, h⟩
    exact ⟨d, List.mem_filter.2 ⟨hd, by simp [isRaw4, h4]⟩, h4, h⟩

theorem hasCodeSignature_loop_perm (bo : binary.ByteOrder) (loads loads2 : List macho.Load)
    (hperm : loads.Perm loads2) :
    hasCodeSignature.loop bo loads = hasCodeSignature.loop bo loads2 := by
  rw [Bool.eq_iff_iff, hasCodeSignature_loop_iff, hasCodeSignature_loop_iff]
  constructor
  · rintro ⟨d, hd, h4, h⟩
    exact ⟨d, hperm.mem_iff.1 hd, h4, h⟩
  · rintro ⟨d, hd, h4, h⟩
    exact ⟨d, hperm.mem_iff.2 hd, h4, h⟩

/-- C15: `hasCodeSignature` looks at the load commands of variant `LoadBytes` with at
least four bytes only.  Its result is unchanged when all other load commands
are removed, it is invariant under permutation of the load commands, a command
of another variant can be dropped from any position without changing the
result whatever its raw bytes are, and a file without `LoadBytes` command is
never reported signed. -/
theorem hasCodeSignature_raw_only (bo : binary.ByteOrder) (is64 : Bool)
    (loads : List macho.Load) :
    hasCodeSignature ⟨bo, is64, loads⟩ = hasCodeSignature ⟨bo, is64, loads.filter isRaw4⟩ ∧
    (∀ loads2, loads.Perm loads2 →
      hasCodeSignature ⟨bo, is64, loads⟩ = hasCodeSignature ⟨bo, is64, loads2⟩) ∧
    (∀ l loads2, isLoadBytes l = false →
      hasCodeSignature ⟨bo, is64, loads ++ l :: loads2⟩ =
        hasCodeSignature ⟨bo, is64, loads ++ loads2⟩) ∧
    ((∀ l ∈ loads, isLoadBytes l = false) → hasCodeSignature ⟨bo, is64, loads⟩ = false) := by
  refine ⟨?_, ?_, ?_, ?_⟩
  · simp only [hasCodeSignature]
    rw [hasCodeSignature_loop_filter]
  · intro loads2 hperm
    simp only [hasCodeSignature]
    exact hasCodeSignature_loop_perm bo loads loads2 hperm
  · intro l loads2 hl
    simp only [hasCodeSignature]
    rw [← hasCodeSignature_loop_filter bo (loads ++ l :: loads2),
      ← hasCodeSignature_loop_filter bo (loads ++ loads2)]
    have hraw : isRaw4 l = false := by
      cases l <;> simp_all [isRaw4, isLoadBytes]
    simp [List.filter_append, List.filter_cons, hraw]
  · intro h
    simp only [hasCodeSignature]
    rw [← Bool.not_eq_true, hasCodeSignature_loop_iff]
    rintro ⟨d, hd, -, -⟩
    have := h _ hd
    simp [isLoadBytes] at this

/-- Witness of C15: a segment whose raw bytes start with `1D 00 00 00` is not
reported as a signature, alone or next to an unsigned raw command. -/
theorem hasCodeSignature_raw_only_witness :
    hasCodeSignature ⟨.LittleEndian, true, [.Segment "__TEXT" (rawLE 0x1d)]⟩ = false ∧
    hasCodeSignature
        ⟨.LittleEndian, true, [.LoadBytes (rawLE 0x1b)] ++ .Segment "__TEXT" (rawLE 0x1d) :: []⟩ =
      hasCodeSignature ⟨.LittleEndian, true, [.LoadBytes (rawLE 0x1b)] ++ []⟩ :=
  ⟨(hasCodeSignature_raw_only .LittleEndian true [.Segment "__TEXT" (rawLE 0x1d)]).2.2.2
      (by decide),
   (hasCodeSignature_raw_only .LittleEndian true [.LoadBytes (rawLE 0x1b)]).2.2.1
      (.Segment "__TEXT" (rawLE 0x1d)) [] rfl⟩

/-! ### C16 -/

theorem uint32_none_of_short (bo : binary.ByteOrder) (b : List Nat) (h : b.length < 4) :
    bo.Uint32 b = none := by
  cases hu : bo.Uint32 b with
  | none => rfl
  | some v => have := uint32_some_length bo b v hu; omega

/-- C16: `hasCodeSignatureFromFile` returns false for every file shorter than four
bytes and for every file whose first four bytes, read as a little-endian 32-bit
word, are none of `0xfeedface`, `0xcefaedfe`, `0xfeedfacf`, `0xcffaedfe`,
whatever the rest of the file holds. -/
theorem hasCodeSignatureFromFile_rejects (w : World) (filename : String) (bytes : List Nat)
    (hopen : w.osOpen filename = some bytes)
    (h : bytes.length < 4 ∨
      ∃ magic, binary.ByteOrder.LittleEndian.Uint32 bytes = some magic ∧
        magic ≠ 0xfeedface ∧ magic ≠ 0xcefaedfe ∧ magic ≠ 0xfeedfacf ∧ magic ≠ 0xcffaedfe) :
    hasCodeSignatureFromFile w filename = false := by
  unfold hasCodeSignatureFromFile
  rw [hopen]
  rcases h with h | ⟨magic, hm, h1, h2, h3, h4⟩
  · simp [binary.Read, uint32_none_of_short _ _ h]
  · simp [binary.Read, hm, hasCodeSignatureFromFile.layout, h1, h2, h3, h4]

/-- Witness of C16: a universal-binary header `CA FE BA BE` followed by a command of
type `0x1d`, a PE header starting with `MZ`, and a file of two bytes are all
rejected. -/
theorem hasCodeSignatureFromFile_rejects_witness :
    hasCodeSignatureFromFile
      (World.const (.error "not pe") (.error "not macho") (.error "not fat")
        (some ([0xca, 0xfe, 0xba, 0xbe] ++ signedImage.drop 4))) "universal" = false ∧
    hasCodeSignatureFromFile
      (World.const (.error "not pe") (.error "not macho") (.error "not fat")
        (some ([0x4d, 0x5a, 0x90, 0x00] ++ signedImage.drop 4))) "a.exe" = false ∧
    hasCodeSignatureFromFile
      (World.const (.error "not pe") (.error "not macho") (.error "not fat")
        (some [0x4d, 0x5a])) "short" = false :=
  ⟨hasCodeSignatureFromFile_rejects
      (World.const (.error "not pe") (.error "not macho") (.error "not fat")
        (some ([0xca, 0xfe, 0xba, 0xbe] ++ signedImage.drop 4))) "universal"
      ([0xca, 0xfe, 0xba, 0xbe] ++ signedImage.drop 4) rfl
      (Or.inr ⟨0xbebafeca, rfl, by decide, by decide, by decide, by decide⟩),
   hasCodeSignatureFromFile_rejects
      (World.const (.error "not pe") (.error "not macho") (.error "not fat")
        (some ([0x4d, 0x5a, 0x90, 0x00] ++ signedImage.drop 4))) "a.exe"
      ([0x4d, 0x5a, 0x90, 0x00] ++ signedImage.drop 4) rfl
      (Or.inr ⟨0x00905a4d, rfl, by decide, by decide, by decide, by decide⟩),
   hasCodeSignatureFromFile_rejects
      (World.const (.error "not pe") (.error "not macho") (.error "not fat")
        (some [0x4d, 0x5a])) "short" [0x4d, 0x5a] rfl (Or.inl (by decide))⟩

/-! ### C17 -/

theorem uint32_lt (bo : binary.ByteOrder) (b : List Nat) (v : Nat)
    (h : bo.Uint32 b = some v) : v < 4294967296 := by
  match b with
  | [] => cases bo <;> simp [binary.ByteOrder.Uint32] at h
  | [_] => cases bo <;> simp [binary.ByteOrder.Uint32] at h
  | [_, _] => cases bo <;> simp [binary.ByteOrder.Uint32] at h
  | [_, _, _] => cases bo <;> simp [binary.ByteOrder.Uint32] at h
  | b0 :: b1 :: b2 :: b3 :: _ =>
    cases bo <;> simp only [binary.ByteOrder.Uint32, Option.some.injEq] at h <;> omega

theorem read_lt (bo : binary.ByteOrder) (f g : Handle) (v : Nat)
    (h : binary.Read f bo = some (v, g)) : v < 4294967296 := by
  unfold binary.Read at h
  cases hu : bo.Uint32 (f.data.drop f.pos) with
  | none => rw [hu] at h; cases h
  | some u =>
    rw [hu] at h
    simp only [Option.some.injEq, Prod.mk.injEq] at h
    rw [← h.1]; exact uint32_lt bo _ u hu

theorem sub32_eight (s : Nat) (h8 : 8 ≤ s) (hlt : s < 4294967296) :
    sub32 s 8 = s - 8 ∧ sub32 s 8 + 8 = s := by
  unfold sub32
  omega

theorem run_spec (bo : binary.ByteOrder) (ncmd : Nat) (hn : ncmd < 4294967296) :
    ∀ (fuel i : Nat) (f : Handle) (iters : Nat) (subs : List Nat),
      i ≤ ncmd → ncmd - i < fuel →
      ∃ r, hasCodeSignatureFromFile.run bo ncmd fuel i f iters subs = some r ∧
        r.result = hasCodeSignatureFromFile.walk bo (ncmd - i) f ∧
        r.iterations ≤ iters + (ncmd - i) ∧
        ∀ s ∈ r.subtracted, s ∈ subs ∨ (8 ≤ s ∧ s < 4294967296) := by
  intro fuel
  induction fuel with
  | zero => intro i f iters subs _ h; omega
  | succ fuel ih =>
    intro i f iters subs hi hfuel
    by_cases hlt : i < ncmd
    · obtain ⟨m, hm⟩ : ∃ m, ncmd - i = m + 1 := ⟨ncmd - i - 1, by omega⟩
      rw [hm, hasCodeSignatureFromFile.run, hasCodeSignatureFromFile.walk]
      simp only [hlt, if_true]
      cases h1 : binary.Read f bo with
      | none => exact ⟨_, rfl, rfl, by simp, fun s hs => Or.inl hs⟩
      | some p1 =>
        obtain ⟨cmd, f1⟩ := p1
        simp only
        cases h2 : binary.Read f1 bo with
        | none => exact ⟨_, rfl, rfl, by simp, fun s hs => Or.inl hs⟩
        | some p2 =>
          obtain ⟨cmdsize, f2⟩ := p2
          simp only
          by_cases hc : cmd = LC_CODE_SIGNATURE
          · simp only [hc, if_true]
            exact ⟨_, rfl, rfl, by simp, fun s hs => Or.inl hs⟩
          · by_cases h8 : cmdsize < 8
            · simp only [hc, h8, if_true, if_false]
              exact ⟨_, rfl, rfl, by simp, fun s hs => Or.inl hs⟩
            · simp only [hc, h8, if_false]
              have hsz := read_lt bo f1 f2 cmdsize h2
              have hi1 : (i + 1) % 4294967296 = i + 1 := Nat.mod_eq_of_lt (by omega)
              have hsub := (sub32_eight cmdsize (by omega) hsz).1
              have hm2 : ncmd - (i + 1) = m := by omega
              rw [hi1, hsub]
              obtain ⟨r, hr, hres, hit, hsubs⟩ :=
                ih (i + 1) (f2.Seek (cmdsize - 8) 1) (iters + 1) (subs ++ [cmdsize])
                  (by omega) (by omega)
              rw [hm2] at hres hit
              refine ⟨r, hr, hres, by omega, ?_⟩
              intro s hs
              rcases hsubs s hs with h | h
              · rcases List.mem_append.1 h with h | h
                · exact Or.inl h
                · simp only [List.mem_singleton] at h
                  subst h
                  exact Or.inr ⟨by omega, hsz⟩
              · exact Or.inr h
    · have h0 : ncmd - i = 0 := by omega
      rw [h0, hasCodeSignatureFromFile.run, hasCodeSignatureFromFile.walk]
      simp only [hlt, if_false]
      exact ⟨_, rfl, rfl, by simp, fun s hs => Or.inl hs⟩

theorem walk_past_end (bo : binary.ByteOrder) (data : List Nat) (pos n : Nat)
    (h : data.length < pos + 8) :
    hasCodeSignatureFromFile.walk bo (n + 1) ⟨data, pos⟩ = false := by
  rw [hasCodeSignatureFromFile.walk]
  cases h1 : binary.Read ⟨data, pos⟩ bo with
  | none => rfl
  | some p1 =>
    obtain ⟨cmd, f1⟩ := p1
    have hf1 : f1 = ⟨data, pos + 4⟩ := by
      unfold binary.Read at h1
      cases hu : bo.Uint32 (data.drop pos) with
      | none => simp [hu] at h1
      | some u => simp [hu] at h1; exact h1.2.symm
    subst hf1
    have h2 : binary.Read ⟨data, pos + 4⟩ bo = none := by
      simp [binary.Read, uint32_none_of_short bo (data.drop (pos + 4)) (by simp; omega)]
    simp [h2]

/-- C17: the load-command loop is total and its `uint32` arithmetic does not wrap.  For
every byte sequence whose `ncmds` field decodes to `ncmd`, and from every
offset, the loop with its counter ends within `ncmd + 1` tests of the loop
condition, after at most `ncmd` iterations, with the value of
`hasCodeSignatureFromFile.walk`; `cmdsize-8` is computed only for
`cmdsize >= 8`, where the `uint32` difference is the exact one; and an iteration
that starts with fewer than 8 bytes left in the file returns false. -/
theorem hasCodeSignatureFromFile_walk_total (bo : binary.ByteOrder) (bytes : List Nat)
    (ncmd pos fuel : Nat) (hn : bo.Uint32 (bytes.drop 16) = some ncmd) (hfuel : ncmd < fuel) :
    (∃ r, hasCodeSignatureFromFile.run bo ncmd fuel 0 ⟨bytes, pos⟩ 0 [] = some r ∧
      r.result = hasCodeSignatureFromFile.walk bo ncmd ⟨bytes, pos⟩ ∧
      r.iterations ≤ ncmd ∧
      ∀ s ∈ r.subtracted, 8 ≤ s ∧ sub32 s 8 + 8 = s) ∧
    (∀ n p, bytes.length < p + 8 →
      hasCodeSignatureFromFile.walk bo (n + 1) ⟨bytes, p⟩ = false) := by
  constructor
  · obtain ⟨r, hr, hres, hit, hsubs⟩ :=
      run_spec bo ncmd (uint32_lt bo _ ncmd hn) fuel 0 ⟨bytes, pos⟩ 0 [] (Nat.zero_le _)
        (by omega)
    refine ⟨r, hr, hres, by omega, ?_⟩
    intro s hs
    rcases hsubs s hs with h | ⟨h8, hlt⟩
    · cases h
    · exact ⟨h8, (sub32_eight s h8 hlt).2⟩
  · intro n p h
    exact walk_past_end bo bytes p n h

/-- Witness of C17: on `undersizedSecond` (two commands announced, walk started at
offset 32 with 3 tests of the loop condition allowed) the loop ends after two
iterations with the value false, having computed `cmdsize-8` once, for
`cmdsize = 16`. -/
theorem hasCodeSignatureFromFile_walk_total_witness :
    binary.ByteOrder.LittleEndian.Uint32 (undersizedSecond.drop 16) = some 2 ∧
    hasCodeSignatureFromFile.run .LittleEndian 2 3 0 ⟨undersizedSecond, 32⟩ 0 [] =
      some ⟨false, 2, [16]⟩ ∧
    ((∃ r, hasCodeSignatureFromFile.run .LittleEndian 2 3 0 ⟨undersizedSecond, 32⟩ 0 [] = some r ∧
      r.result = hasCodeSignatureFromFile.walk .LittleEndian 2 ⟨undersizedSecond, 32⟩ ∧
      r.iterations ≤ 2 ∧
      ∀ s ∈ r.subtracted, 8 ≤ s ∧ sub32 s 8 + 8 = s) ∧
    (∀ n p, undersizedSecond.length < p + 8 →
      hasCodeSignatureFromFile.walk .LittleEndian (n + 1) ⟨undersizedSecond, p⟩ = false)) :=
  ⟨rfl, by decide,
   hasCodeSignatureFromFile_walk_total .LittleEndian undersizedSecond 2 32 3 rfl (by decide)⟩

end Signcheck
